import Mathlib

/-!
Verification of the CleanDiffuser robomimic dataset pipeline
(`cleandiffuser/dataset/robomimic_dataset.py`).

The development shallowly embeds the data model and the algorithms of the
pipeline: arrays become lists, numpy scalars become rationals, Python
exceptions become `Except`.  Components of the repository that the dataset
file imports but whose source is not available (`SequenceSampler`,
`MinMaxNormalizer`, `RotationTransformer`) are modelled from the
specification; every such definition is marked `Modelled from the spec:` in
its doc comment.  Everything else is translated directly from
`robomimic_dataset.py`.
-/

namespace CleanDiffuser

/-! ## Min-max normalizer (modelled from the spec) -/

/-- Modelled from the spec: `MinMaxNormalizer` (source file
`cleandiffuser/utils/normalizers.py` is not available).  Elementwise affine
map of one scalar from the observed range `[lo, hi]` onto the output range
`[outLo, outHi]`; when `hi == lo` the element is sent to the midpoint of the
output range with no division. -/
def normElem (lo hi outLo outHi x : ℚ) : ℚ :=
  if hi = lo then (outLo + outHi) / 2
  else (x - lo) / (hi - lo) * (outHi - outLo) + outLo

/-- Modelled from the spec: exact algebraic inverse of the affine map of
`normElem` (no clipping). -/
def unnormElem (lo hi outLo outHi y : ℚ) : ℚ :=
  (y - outLo) / (outHi - outLo) * (hi - lo) + lo

/-- Modelled from the spec: per-field normalizer state, holding elementwise
minimum and maximum plus the target output range (default `[-1, 1]`). -/
structure MinMaxNormalizer where
  vmin : List ℚ
  vmax : List ℚ
  outLo : ℚ := -1
  outHi : ℚ := 1

/-- Modelled from the spec: `normalize` applied to one row, elementwise over
the per-column statistics. -/
def MinMaxNormalizer.normalizeRow (nm : MinMaxNormalizer) (row : List ℚ) : List ℚ :=
  (row.zip (nm.vmin.zip nm.vmax)).map fun p => normElem p.2.1 p.2.2 nm.outLo nm.outHi p.1

/-- Modelled from the spec: `unnormalize` applied to one row. -/
def MinMaxNormalizer.unnormalizeRow (nm : MinMaxNormalizer) (row : List ℚ) : List ℚ :=
  (row.zip (nm.vmin.zip nm.vmax)).map fun p => unnormElem p.2.1 p.2.2 nm.outLo nm.outHi p.1

/-! ## Sequence sampler (modelled from the spec) -/

/-- Modelled from the spec: number of valid windows contributed by one
episode of length `n`, namely `max (0, n + pad_before + pad_after - L + 1)`
(truncated natural subtraction realises the `max 0`). -/
def windowCount (L pb pa n : ℕ) : ℕ := n + pb + pa + 1 - L

/-- Modelled from the spec: the local start offsets of one episode's
windows, ordered; offsets run from `-pad_before` upward. -/
def episodeWindows (L pb pa n : ℕ) : List ℤ :=
  (List.range (windowCount L pb pa n)).map (fun k : ℕ => (k : ℤ) - (pb : ℤ))

/-- Modelled from the spec: the sampler's precomputed window table: windows
ordered by episode index then by local start offset, each paired with its
episode's data. -/
def allWindows {α : Type} (L pb pa : ℕ) (eps : List (List α)) : List (List α × ℤ) :=
  eps.flatMap (fun ep => (episodeWindows L pb pa ep.length).map (fun o => (ep, o)))

/-- Modelled from the spec: `len()` of the sampler, the size of the window
table computed at construction. -/
def samplerLen {α : Type} (L pb pa : ℕ) (eps : List (List α)) : ℕ :=
  (allWindows L pb pa eps).length

/-- Modelled from the spec: the clamped sub-range of real data read for a
window at local start offset `o`: the range `[o, o+L)` clamped into
`[0, n)`. -/
def windowSeg {α : Type} (L : ℕ) (ep : List α) (o : ℤ) : List α :=
  (ep.drop (max o 0).toNat).take (min (o + L) (ep.length : ℤ) - max o 0).toNat

/-- Modelled from the spec: extraction of one window of length `L` from one
episode at local start offset `o`: clamp `[o, o+L)` into `[0, n)`, read the
clamped sub-range, and pad at the front/back by repeating the first/last
valid row (edge-replication padding). -/
def extractWindow {α : Type} (L : ℕ) (ep : List α) (o : ℤ) : Except String (List α) :=
  match (windowSeg L ep o).head?, (windowSeg L ep o).getLast? with
  | some f, some l =>
      .ok (List.replicate (max o 0 - o).toNat f ++ windowSeg L ep o
        ++ List.replicate (o + L - min (o + L) (ep.length : ℤ)).toNat l)
  | _, _ => .error "window holds no real data"

/-- Modelled from the spec: `sample_sequence` on one field: resolve the
window index through the precomputed table (index error when out of range)
and extract the edge-padded slice. -/
def sampleSequenceField {α : Type} (L pb pa : ℕ) (eps : List (List α)) (idx : ℕ) :
    Except String (List α) :=
  match (allWindows L pb pa eps).get? idx with
  | some w => extractWindow L w.1 w.2
  | none => .error "index out of range"

/-! ## Python dict values holding normalizers (from `robomimic_dataset.py`) -/

/-- A value of the nested normalizer dictionary built by
`RobomimicDataset.get_normalizer`: either a sub-dictionary or a normalizer. -/
inductive NormVal where
  | dict (entries : List (String × NormVal))
  | norm (nm : MinMaxNormalizer)

/-- Python dictionary subscript `d[k]`: raises `KeyError` when absent. -/
def dictGet (entries : List (String × NormVal)) (k : String) : Except String NormVal :=
  match entries.find? (fun p => p.1 == k) with
  | some p => .ok p.2
  | none => .error ("KeyError: " ++ k)

/-- Using a dict value as a sub-dictionary (`d["obs"]["state"]`). -/
def asDict : NormVal → Except String (List (String × NormVal))
  | .dict es => .ok es
  | .norm _ => .error "TypeError: not a dict"

/-- Using a dict value as a normalizer (`.normalize(...)`). -/
def asNorm : NormVal → Except String MinMaxNormalizer
  | .norm nm => .ok nm
  | .dict _ => .error "TypeError: not a normalizer"

/-- `RobomimicDataset.get_normalizer` (robomimic_dataset.py lines 124-130):
returns the dict with keys `"obs"` (holding `"state"`) and `"act"`. -/
def getNormalizer (sn an : MinMaxNormalizer) : List (String × NormVal) :=
  [("obs", .dict [("state", .norm sn)]), ("act", .norm an)]

/-- The sample returned by the sampler for the low-dim dataset: the `"obs"`
field and the `"action"` field. -/
structure RMSample where
  obs : List (List ℚ)
  action : List (List ℚ)

/-- `sample_sequence` over the two fields of the low-dim replay buffer. -/
def rmSampleSequence (L pb pa : ℕ) (epsObs epsAct : List (List (List ℚ))) (idx : ℕ) :
    Except String RMSample := do
  let o ← sampleSequenceField L pb pa epsObs idx
  let a ← sampleSequenceField L pb pa epsAct idx
  .ok ⟨o, a⟩

/-- `RobomimicDataset.__getitem__` (robomimic_dataset.py lines 150-156):
sample, then `self.normalizer["obs"]["state"].normalize(sample["obs"])`,
then `self.normalizer["action"].normalize(sample["action"])`, where
`self.normalizer = self.get_normalizer()` (line 103). -/
def getitem (L pb pa : ℕ) (epsObs epsAct : List (List (List ℚ))) (sn an : MinMaxNormalizer)
    (idx : ℕ) : Except String (List (List ℚ) × List (List ℚ)) := do
  let sample ← rmSampleSequence L pb pa epsObs epsAct idx
  let obsEntry ← dictGet (getNormalizer sn an) "obs"
  let obsDict ← asDict obsEntry
  let stateVal ← dictGet obsDict "state"
  let stateNm ← asNorm stateVal
  let state := sample.obs.map stateNm.normalizeRow
  let actEntry ← dictGet (getNormalizer sn an) "action"
  let actNm ← asNorm actEntry
  let action := sample.action.map actNm.normalizeRow
  .ok (state, action)

/-! ## Absolute-action conversion (from `robomimic_dataset.py`) -/

/-- Core of `_convert_actions` on one single-arm row (robomimic_dataset.py
lines 339-343): split into position `[0:3]`, rotation `[3:6]`, gripper
`[6:]`, convert the rotation with the transformer's `forward`, and
re-concatenate. -/
def convertRow (fwd : List ℚ → List ℚ) (row : List ℚ) : List ℚ :=
  row.take 3 ++ fwd ((row.drop 3).take 3) ++ row.drop 6

/-- `_convert_actions` on one row (robomimic_dataset.py lines 330-348): the
identity when `abs_action` is off; with `abs_action`, a width-14 row is
reshaped into two width-7 halves, each converted, and re-flattened. -/
def convertActionsRow (fwd : List ℚ → List ℚ) (absAction : Bool) (row : List ℚ) : List ℚ :=
  if absAction then
    if row.length = 14 then convertRow fwd (row.take 7) ++ convertRow fwd (row.drop 7)
    else convertRow fwd row
  else row

/-- Core of `undo_transform_action` on one row (robomimic_dataset.py lines
111-116): `d_rot = width - 4`, position `[0:3]`, rotation `[3:3+d_rot]`,
gripper `[..., [-1]]` (the last element as a length-1 slice), rotation sent
through the transformer's `inverse`. -/
def undoRow (inv : List ℚ → List ℚ) (row : List ℚ) : List ℚ :=
  row.take 3 ++ inv ((row.drop 3).take (row.length - 4)) ++ row.drop (row.length - 1)

/-- `undo_transform_action` on one row (robomimic_dataset.py lines 105-122
and 310-327): a width-20 row is reshaped into two width-10 halves, each
undone, and re-flattened to width 14. -/
def undoTransformAction (inv : List ℚ → List ℚ) (row : List ℚ) : List ℚ :=
  if row.length = 20 then undoRow inv (row.take 10) ++ undoRow inv (row.drop 10)
  else undoRow inv row

/-- A concrete rotation transformer `forward` standing in for the abstract
collaborator in witnesses: widens a 3-vector to a 6-vector. -/
def fwdModel (r : List ℚ) : List ℚ := r ++ r

/-- The matching concrete `inverse` for `fwdModel`. -/
def invModel (r : List ℚ) : List ℚ := r.take 3

/-! ## Conversion pipeline `_convert_robomimic_to_replay` -/

/-- The episode-ends accumulation loop (robomimic_dataset.py lines 430-437):
running cumulative end offsets of the episodes. -/
def episodeEndsAux (prev : ℕ) : List ℕ → List ℕ
  | [] => []
  | n :: rest => (prev + n) :: episodeEndsAux (prev + n) rest

/-- `episode_ends` of the conversion pipeline, from the episode lengths. -/
def episodeEnds (lens : List ℕ) : List ℕ := episodeEndsAux 0 lens

/-- `episode_starts = [0] + episode_ends[:-1]` (robomimic_dataset.py line
439). -/
def episodeStarts (lens : List ℕ) : List ℕ := 0 :: (episodeEnds lens).dropLast

/-- The destination row of one image-copy task (robomimic_dataset.py line
509): `zarr_idx = episode_starts[episode_idx] + hdf5_idx`. -/
def zarrIdx (lens : List ℕ) (episodeIdx hdf5Idx : ℕ) : ℕ :=
  (episodeStarts lens).getD episodeIdx 0 + hdf5Idx

/-- `n_steps = episode_ends[-1]` (robomimic_dataset.py line 438): indexing
`[-1]` on an empty Python list raises `IndexError`. -/
def convertMeta (lens : List ℕ) : Except String ℕ :=
  match (episodeEnds lens).getLast? with
  | some n => .ok n
  | none => .error "IndexError: list index out of range"

/-- One low-dimensional field (or the action field) of the conversion: the
per-episode arrays, the transform applied after concatenation (the identity
for observation keys, `_convert_actions` for the action key), and the
declared per-step width from `shape_meta`. -/
structure LowdimField where
  episodesData : List (List (List ℚ))
  transform : List (List ℚ) → List (List ℚ)
  declaredShape : ℕ

/-- The body of the lowdim-saving loop for one key (robomimic_dataset.py
lines 443-468): concatenate the per-episode arrays in episode order, apply
the key's transform, and assert the resulting shape is `(n_steps,)` followed
by the declared per-step shape, aborting on mismatch. -/
def saveLowdimKey (f : LowdimField) (nSteps : ℕ) : Except String (List (List ℚ)) :=
  let thisData := f.transform f.episodesData.flatten
  if thisData.length = nSteps ∧ ∀ r ∈ thisData, r.length = f.declaredShape then .ok thisData
  else .error "AssertionError: shape mismatch"

/-- The shape condition asserted by the lowdim-saving loop for one key. -/
def lowdimShapeOk (f : LowdimField) (nSteps : ℕ) : Prop :=
  (f.transform f.episodesData.flatten).length = nSteps
  ∧ ∀ r ∈ f.transform f.episodesData.flatten, r.length = f.declaredShape

/-- The lowdim-saving loop over all keys: the first failing assertion aborts
the whole loop. -/
def saveAllLowdim (fields : List LowdimField) (nSteps : ℕ) :
    Except String (List (List (List ℚ))) :=
  match fields with
  | [] => .ok []
  | f :: rest => do
      let a ← saveLowdimKey f nSteps
      let r ← saveAllLowdim rest nSteps
      .ok (a :: r)

/-- `img_copy` (robomimic_dataset.py lines 470-477): write the frame and
re-read it to verify the codec round-trip; an internal exception (`encoded =
none`) is caught and reported as `false`, as is a failed round-trip check. -/
def imgCopy {α : Type} (encoded : Option α) (roundtripOk : α → Bool) : Bool :=
  match encoded with
  | some v => roundtripOk v
  | none => false

/-- One drain of completed image tasks (robomimic_dataset.py lines 504-506
and 512-514): `RuntimeError` as soon as any completed task reports failure. -/
def drainBatch (b : List Bool) : Except String Unit :=
  if b.all id then .ok () else .error "RuntimeError: Failed to encode image!"

/-- The whole sequence of drains of the image-encoding phase (the bounded
in-flight drains followed by the final drain), each batch an unordered set
of completed task results. -/
def drainAll : List (List Bool) → Except String Unit
  | [] => .ok ()
  | b :: bs => do
      drainBatch b
      drainAll bs

/-- `max_inflight_tasks` default (robomimic_dataset.py line 407):
`n_workers * 5`. -/
def defaultMaxInflight (nWorkers : ℕ) : ℕ := nWorkers * 5

/-- In-flight task counts over the submission loop (robomimic_dataset.py
lines 498-510), starting from `s` outstanding tasks.  Before each
submission, when the in-flight count has reached `maxI` the submitter blocks
on `concurrent.futures.wait` and removes the `d` tasks that completed
(`d ≥ 1` by `FIRST_COMPLETED`); then the new task is submitted.  The trace
records the count before every submission and after the last one. -/
def inflightTrace (maxI : ℕ) : List ℕ → ℕ → List ℕ
  | [], s => [s]
  | d :: ds, s => s :: inflightTrace maxI ds (if maxI ≤ s then s - d + 1 else s + 1)

/-- `_convert_robomimic_to_replay` (robomimic_dataset.py lines 351-518),
phases composed: episode-end metadata (fails on zero episodes), the
lowdim/action saving loop with its shape assertions, and the image-encoding
drains; any failure aborts the call and no replay buffer is returned. -/
def convertToReplay (lens : List ℕ) (fields : List LowdimField)
    (batches : List (List Bool)) : Except String (ℕ × List (List (List ℚ))) := do
  let nSteps ← convertMeta lens
  let lowdim ← saveAllLowdim fields nSteps
  drainAll batches
  .ok (nSteps, lowdim)

/-! ## Theorems -/

/-- Claim C9: for every value within a field's observed range the min-max
round trip `unnormalize (normalize x) = x` holds; a constant element
(`max = min`) is sent to the midpoint of the output range by the
division-free branch; values outside the observed range follow the same
affine map with no clipping (pass-through extrapolation). -/
theorem C9_minmax_roundtrip (lo hi outLo outHi : ℚ) (hout : outLo ≠ outHi) :
    (∀ x, lo ≤ x → x ≤ hi → unnormElem lo hi outLo outHi (normElem lo hi outLo outHi x) = x)
    ∧ (hi = lo → ∀ x, normElem lo hi outLo outHi x = (outLo + outHi) / 2)
    ∧ (lo < hi → ∀ x,
        normElem lo hi outLo outHi x = (x - lo) / (hi - lo) * (outHi - outLo) + outLo
        ∧ unnormElem lo hi outLo outHi (normElem lo hi outLo outHi x) = x) := by
  have hod : outHi - outLo ≠ 0 := sub_ne_zero.mpr (Ne.symm hout)
  have key : ∀ x : ℚ, lo < hi →
      normElem lo hi outLo outHi x = (x - lo) / (hi - lo) * (outHi - outLo) + outLo
      ∧ unnormElem lo hi outLo outHi (normElem lo hi outLo outHi x) = x := by
    intro x hlt
    have hd : hi - lo ≠ 0 := sub_ne_zero.mpr (ne_of_gt hlt)
    have hne : hi ≠ lo := ne_of_gt hlt
    constructor
    · rw [normElem, if_neg hne]
    · rw [normElem, if_neg hne, unnormElem]
      field_simp
      ring
  refine ⟨?_, ?_, fun h x => key x h⟩
  · intro x h1 h2
    rcases lt_or_eq_of_le (le_trans h1 h2) with hlt | heq
    · exact ((fun y => key y hlt) x).2
    · have hx : x = lo := le_antisymm (heq ▸ h2) h1
      rw [normElem, if_pos heq.symm, unnormElem, hx, ← heq]
      field_simp
  · intro h x
    rw [normElem, if_pos h]

/-- Claim C7: the sampler's `len()` equals the closed-form sum over episodes
of `max (0, episode_length + pad_before + pad_after - sequence_length + 1)`,
and in particular equals `6` for two episodes of lengths `5` and `3` with
`L = 4`, `pad_before = 1`, `pad_after = 1`. -/
theorem C7_sampler_len_closed_form (L pb pa : ℕ) (eps : List (List ℚ)) :
    samplerLen L pb pa eps =
      (eps.map (fun ep => ((ep.length : ℤ) + pb + pa - L + 1).toNat)).sum
    ∧ samplerLen 4 1 1 [List.replicate 5 (0 : ℚ), List.replicate 3 0] = 6 := by
  constructor
  · induction eps with
    | nil => rfl
    | cons ep rest ih =>
        have h1 : samplerLen L pb pa (ep :: rest)
            = windowCount L pb pa ep.length + samplerLen L pb pa rest := by
          unfold samplerLen allWindows
          rw [List.flatMap_cons, List.length_append, List.length_map]
          unfold episodeWindows
          rw [List.length_map, List.length_range]
        rw [h1, ih]
        simp only [List.map_cons, List.sum_cons]
        unfold windowCount
        omega
  · rfl

/-- Claim C10: on a source container with zero episodes the conversion
pipeline fails with the `IndexError` of `episode_ends[-1]` instead of
returning an empty store; with at least one episode the total-step
computation succeeds and yields the sum of the episode lengths, so a
non-empty container is a precondition of the pipeline. -/
theorem C10_empty_container_fails (fields : List LowdimField) (batches : List (List Bool))
    (lens : List ℕ) :
    convertToReplay [] fields batches = .error "IndexError: list index out of range"
    ∧ (lens ≠ [] → ∃ n, convertMeta lens = .ok n ∧ n = lens.sum) := by
  have aux : ∀ (l : List ℕ) (prev : ℕ), l ≠ [] →
      (episodeEndsAux prev l).getLast? = some (prev + l.sum) := by
    intro l
    induction l with
    | nil => intro prev h; exact absurd rfl h
    | cons n rest ih =>
        intro prev _
        rcases rest with _ | ⟨m, rest⟩
        · simp [episodeEndsAux]
        · have h2 : episodeEndsAux (prev + n) (m :: rest) =
              (prev + n + m) :: episodeEndsAux (prev + n + m) rest := rfl
          rw [episodeEndsAux, h2, List.getLast?_cons_cons, ← h2, ih (prev + n) (by simp)]
          congr 1
          simp [List.sum_cons]
          ring
  constructor
  · rfl
  · intro h
    refine ⟨lens.sum, ?_, rfl⟩
    rw [convertMeta, episodeEnds, aux lens 0 h]
    simp

/-- Witness for C9: concrete round trip on the range `[0, 2]` with output
range `[-1, 1]` at `x = 1`. -/
theorem C9_minmax_roundtrip_witness :
    unnormElem 0 2 (-1) 1 (normElem 0 2 (-1) 1 1) = 1 :=
  (C9_minmax_roundtrip 0 2 (-1) 1 (by norm_num)).1 1 (by norm_num) (by norm_num)

/-- Witness for C10: a two-episode container passes the total-step
computation with total `5`. -/
theorem C10_empty_container_fails_witness :
    ∃ n, convertMeta [2, 3] = Except.ok n ∧ n = [2, 3].sum :=
  (C10_empty_container_fails [] [] [2, 3]).2 (by decide)

/-- Helper: the in-flight counts of the submission loop stay below the
bound, for any start below the bound and any positive drain sizes. -/
theorem inflightTrace_le (maxI : ℕ) (hmax : 1 ≤ maxI) :
    ∀ ds : List ℕ, (∀ d ∈ ds, 1 ≤ d) → ∀ s, s ≤ maxI →
      ∀ x ∈ inflightTrace maxI ds s, x ≤ maxI := by
  intro ds
  induction ds with
  | nil =>
      intro _ s hs x hx
      simp only [inflightTrace, List.mem_singleton] at hx
      omega
  | cons d ds ih =>
      intro hd s hs x hx
      rw [inflightTrace] at hx
      rcases List.mem_cons.mp hx with h | h
      · omega
      · have hd1 : 1 ≤ d := hd d (List.mem_cons_self d ds)
        refine ih (fun d2 hd2 => hd d2 (List.mem_cons_of_mem _ hd2)) _ ?_ x h
        split_ifs <;> omega

/-- Claim C6: during the image-encoding phase the number of in-flight tasks
never exceeds the bound: whenever the count has reached the bound the
submitter blocks until at least one task completes before submitting, so
every count of the trace stays at or below the bound, which defaults to
five times the worker count. -/
theorem C6_bounded_inflight (nWorkers : ℕ) (hw : 1 ≤ nWorkers) (drains : List ℕ)
    (hd : ∀ d ∈ drains, 1 ≤ d) :
    (∀ x ∈ inflightTrace (defaultMaxInflight nWorkers) drains 0,
        x ≤ defaultMaxInflight nWorkers)
    ∧ defaultMaxInflight nWorkers = 5 * nWorkers := by
  have hmax : 1 ≤ defaultMaxInflight nWorkers := by
    unfold defaultMaxInflight
    omega
  exact ⟨inflightTrace_le _ hmax drains hd 0 (by omega), by unfold defaultMaxInflight; omega⟩

/-- Witness for C6: one worker, two drains of one task each. -/
theorem C6_bounded_inflight_witness : defaultMaxInflight 1 = 5 * 1 :=
  (C6_bounded_inflight 1 (by decide) [1, 1] (by decide)).2

/-- Helper: length of the episode-ends accumulation. -/
theorem episodeEndsAux_length (lens : List ℕ) :
    ∀ prev, (episodeEndsAux prev lens).length = lens.length := by
  induction lens with
  | nil => intro _; rfl
  | cons n rest ih =>
      intro prev
      rw [episodeEndsAux]
      simp [ih]

/-- Helper: the `k`-th episode end is the sum of the first `k + 1` lengths
shifted by the accumulator. -/
theorem episodeEndsAux_getD (lens : List ℕ) :
    ∀ prev k, k < lens.length →
      (episodeEndsAux prev lens).getD k 0 = prev + (lens.take (k + 1)).sum := by
  induction lens with
  | nil =>
      intro prev k h
      simp at h
  | cons n rest ih =>
      intro prev k h
      cases k with
      | zero => simp [episodeEndsAux]
      | succ k =>
          rw [episodeEndsAux, List.getD_cons_succ, ih (prev + n) k (by simpa using h),
            List.take_succ_cons, List.sum_cons]
          ring

/-- Helper: the `e`-th episode start offset is the sum of the lengths of the
preceding episodes. -/
theorem episodeStarts_getD (lens : List ℕ) (e : ℕ) (he : e < lens.length) :
    (episodeStarts lens).getD e 0 = (lens.take e).sum := by
  cases e with
  | zero => simp [episodeStarts]
  | succ e =>
      rw [episodeStarts, List.getD_cons_succ]
      have hlen : (episodeEnds lens).length = lens.length := episodeEndsAux_length lens 0
      have he' : e < (episodeEnds lens).dropLast.length := by
        rw [List.length_dropLast, hlen]
        omega
      rw [List.getD_eq_getElem _ _ he', List.getElem_dropLast,
        ← List.getD_eq_getElem _ 0 (by rw [hlen]; omega), episodeEnds,
        episodeEndsAux_getD lens 0 e (by omega)]
      simp

/-- Helper: prefix sums are bounded by the total sum. -/
theorem take_sum_le (lens : List ℕ) (k : ℕ) : (lens.take k).sum ≤ lens.sum := by
  conv_rhs => rw [← List.take_append_drop k lens]
  rw [List.sum_append]
  omega

/-- Helper: prefix sums are monotone. -/
theorem take_sum_mono (lens : List ℕ) {a b : ℕ} (hab : a ≤ b) :
    (lens.take a).sum ≤ (lens.take b).sum := by
  have h : lens.take a = (lens.take b).take a := by
    rw [List.take_take, min_eq_left hab]
  rw [h]
  exact take_sum_le (lens.take b) a

/-- Helper: prefix-sum recurrence. -/
theorem take_sum_succ (lens : List ℕ) :
    ∀ e, e < lens.length → (lens.take (e + 1)).sum = (lens.take e).sum + lens.getD e 0 := by
  induction lens with
  | nil =>
      intro e h
      simp at h
  | cons n rest ih =>
      intro e h
      cases e with
      | zero => simp
      | succ e =>
          rw [List.take_succ_cons, List.sum_cons, List.take_succ_cons, List.sum_cons,
            List.getD_cons_succ, ih e (by simpa using h)]
          ring

/-- Claim C4: every image-copy task's destination row equals the episode's
global start offset plus the local step index; the map is injective over
valid (episode, step) pairs of one field, and its image covers exactly the
rows `[0, total_steps)`. -/
theorem C4_destination_injective_cover (lens : List ℕ) :
    (∀ e t, e < lens.length → t < lens.getD e 0 →
        zarrIdx lens e t = (lens.take e).sum + t ∧ zarrIdx lens e t < lens.sum)
    ∧ (∀ e1 t1 e2 t2, e1 < lens.length → t1 < lens.getD e1 0 →
        e2 < lens.length → t2 < lens.getD e2 0 →
        zarrIdx lens e1 t1 = zarrIdx lens e2 t2 → e1 = e2 ∧ t1 = t2)
    ∧ (∀ i, i < lens.sum → ∃ e t, e < lens.length ∧ t < lens.getD e 0 ∧
        zarrIdx lens e t = i) := by
  have hidx : ∀ e t, e < lens.length → zarrIdx lens e t = (lens.take e).sum + t := by
    intro e t he
    rw [zarrIdx, episodeStarts_getD lens e he]
  have hlt : ∀ e1 t1 e2, e1 < lens.length → t1 < lens.getD e1 0 → e2 ≤ lens.length →
      e1 < e2 → (lens.take e1).sum + t1 < (lens.take e2).sum := by
    intro e1 t1 e2 he1 ht1 he2 hlt12
    have h1 := take_sum_succ lens e1 he1
    have h2 := take_sum_mono lens (show e1 + 1 ≤ e2 by omega)
    omega
  have hbound : ∀ e t, e < lens.length → t < lens.getD e 0 → zarrIdx lens e t < lens.sum := by
    intro e t he ht
    rw [hidx e t he]
    have h1 := take_sum_succ lens e he
    have h2 := take_sum_le lens (e + 1)
    omega
  refine ⟨fun e t he ht => ⟨hidx e t he, hbound e t he ht⟩, ?_, ?_⟩
  · intro e1 t1 e2 t2 he1 ht1 he2 ht2 heq
    rw [hidx e1 t1 he1, hidx e2 t2 he2] at heq
    rcases lt_trichotomy e1 e2 with h | h | h
    · exact absurd heq (by have := hlt e1 t1 e2 he1 ht1 (by omega) h; omega)
    · subst h
      exact ⟨rfl, by omega⟩
    · exact absurd heq (by have := hlt e2 t2 e1 he2 ht2 (by omega) h; omega)
  · have cover : ∀ (l : List ℕ) i, i < l.sum →
        ∃ e t, e < l.length ∧ t < l.getD e 0 ∧ (l.take e).sum + t = i := by
      intro l
      induction l with
      | nil =>
          intro i h
          simp at h
      | cons n rest ih =>
          intro i h
          by_cases hi : i < n
          · exact ⟨0, i, by simp, by simpa using hi, by simp⟩
          · obtain ⟨e, t, he, ht, hsum⟩ := ih (i - n) (by rw [List.sum_cons] at h; omega)
            refine ⟨e + 1, t, by simpa using he, by simpa using ht, ?_⟩
            rw [List.take_succ_cons, List.sum_cons]
            omega
    intro i hi
    obtain ⟨e, t, he, ht, hsum⟩ := cover lens i hi
    exact ⟨e, t, he, ht, by rw [hidx e t he]; exact hsum⟩

/-- Witness for C4: for episode lengths `[2, 3]` the row `4` is covered by a
valid (episode, step) pair. -/
theorem C4_destination_injective_cover_witness :
    ∃ e t, e < ([2, 3] : List ℕ).length ∧ t < ([2, 3] : List ℕ).getD e 0 ∧
      zarrIdx [2, 3] e t = 4 :=
  (C4_destination_injective_cover [2, 3]).2.2 4 (by decide)

/-- Helper: `Except` bind on a success. -/
theorem exceptBind_ok {ε α β : Type} (a : α) (f : α → Except ε β) :
    (Except.ok a >>= f) = f a := rfl

/-- Helper: `Except` bind on a failure. -/
theorem exceptBind_err {ε α β : Type} (e : ε) (f : α → Except ε β) :
    ((Except.error e : Except ε α) >>= f) = Except.error e := rfl

/-- Claim C5: for every low-dimensional field and the action field, the
pipeline concatenates the per-episode arrays in episode order and asserts
the resulting shape is `(total_steps,)` followed by the declared per-step
shape; any mismatch anywhere in the loop aborts the conversion with the
assertion error and no store is returned. -/
theorem C5_lowdim_shape_assert (nSteps : ℕ) :
    (∀ f out, saveLowdimKey f nSteps = .ok out →
        out = f.transform f.episodesData.flatten ∧ out.length = nSteps
        ∧ ∀ r ∈ out, r.length = f.declaredShape)
    ∧ (∀ fields : List LowdimField, (∃ f ∈ fields, ¬ lowdimShapeOk f nSteps) →
        saveAllLowdim fields nSteps = .error "AssertionError: shape mismatch") := by
  have hkey : ∀ f : LowdimField, ¬ lowdimShapeOk f nSteps →
      saveLowdimKey f nSteps = .error "AssertionError: shape mismatch" := by
    intro f hf
    rw [saveLowdimKey, if_neg]
    exact fun h => hf h
  constructor
  · intro f out hout
    rw [saveLowdimKey] at hout
    split_ifs at hout with hcond
    · cases hout
      exact ⟨rfl, hcond.1, hcond.2⟩
  · intro fields
    induction fields with
    | nil =>
        rintro ⟨f, hf, -⟩
        simp at hf
    | cons f0 rest ih =>
        rintro ⟨f, hf, hnok⟩
        have hbind : saveAllLowdim (f0 :: rest) nSteps
            = (saveLowdimKey f0 nSteps >>= fun a =>
                saveAllLowdim rest nSteps >>= fun r => Except.ok (a :: r)) := rfl
        rcases List.mem_cons.mp hf with rfl | hmem
        · rw [hbind, hkey f hnok, exceptBind_err]
        · cases h0 : saveLowdimKey f0 nSteps with
          | error e =>
              have he : e = "AssertionError: shape mismatch" := by
                rw [saveLowdimKey] at h0
                split_ifs at h0
                injection h0 with h
                exact h.symm
              rw [hbind, h0, exceptBind_err, he]
          | ok v =>
              rw [hbind, h0, exceptBind_ok, ih ⟨f, hmem, hnok⟩, exceptBind_err]

/-- Witness for C5: a single field whose declared per-step width `2`
disagrees with its concatenated data of width `1` aborts the loop. -/
theorem C5_lowdim_shape_assert_witness :
    saveAllLowdim [⟨[[[1]]], id, 2⟩] 1 = .error "AssertionError: shape mismatch" :=
  (C5_lowdim_shape_assert 1).2 [⟨[[[1]]], id, 2⟩]
    ⟨⟨[[[1]]], id, 2⟩, List.mem_cons_self _ _, by
      intro h
      exact absurd (h.2 [1] (by simp)) (by decide)⟩

/-- Helper: a drain sequence errors as soon as some batch holds a failed
task result. -/
theorem drainAll_error_of_mem :
    ∀ (batches : List (List Bool)) (b : List Bool), b ∈ batches → false ∈ b →
      drainAll batches = .error "RuntimeError: Failed to encode image!" := by
  intro batches
  induction batches with
  | nil =>
      intro b hb _
      simp at hb
  | cons b0 bs ih =>
      intro b hb hfb
      have hbind : drainAll (b0 :: bs)
          = (drainBatch b0 >>= fun _ => drainAll bs) := rfl
      rcases List.mem_cons.mp hb with rfl | hb'
      · have h0 : drainBatch b = .error "RuntimeError: Failed to encode image!" := by
          rw [drainBatch, if_neg]
          intro hall
          simpa using List.all_eq_true.mp hall false hfb
        rw [hbind, h0, exceptBind_err]
      · cases h0 : drainBatch b0 with
        | error e =>
            have he : e = "RuntimeError: Failed to encode image!" := by
              rw [drainBatch] at h0
              split_ifs at h0
              injection h0 with h
              exact h.symm
            rw [hbind, h0, exceptBind_err, he]
        | ok u =>
            rw [hbind, h0, exceptBind_ok]
            exact ih b hb' hfb

/-- Claim C3: if any image encode-and-verify task fails (an internal
exception or a failed round-trip check, both reported as `false` by
`img_copy`), the conversion raises `RuntimeError` and no replay buffer is
returned, for every possible distribution of the completed tasks over the
bounded-queue drains and the final drain. -/
theorem C3_failure_propagates {α : Type} (tasks : List (Option α × (α → Bool)))
    (batches : List (List Bool))
    (hperm : batches.flatten.Perm (tasks.map fun t => imgCopy t.1 t.2))
    (hfail : ∃ t ∈ tasks, imgCopy t.1 t.2 = false) :
    drainAll batches = .error "RuntimeError: Failed to encode image!" := by
  have hmem : false ∈ batches.flatten := by
    rw [hperm.mem_iff]
    obtain ⟨t, ht, hf⟩ := hfail
    exact List.mem_map.mpr ⟨t, ht, hf⟩
  obtain ⟨b, hb, hfb⟩ := List.mem_flatten.mp hmem
  exact drainAll_error_of_mem batches b hb hfb

/-- Witness for C3: one failing task (an internal exception, `none`) among
two, drained in a single batch. -/
theorem C3_failure_propagates_witness :
    drainAll [[true, false]] = .error "RuntimeError: Failed to encode image!" :=
  C3_failure_propagates (α := Bool) [(some true, fun v => v), (none, fun _ => true)]
    [[true, false]] (by decide) ⟨(none, fun _ => true), List.mem_cons_of_mem _ (List.mem_cons_self _ _), rfl⟩

/-- Claim C1 (code bug): `RobomimicDataset.__getitem__` looks up
`self.normalizer["action"]`, but `get_normalizer` builds the dictionary
with keys `"obs"` and `"act"` only, so for every index at which sampling
succeeds the method raises `KeyError: action` instead of returning the
normalized mapping the claim describes. -/
theorem C1_getitem_keyerror (L pb pa : ℕ) (epsObs epsAct : List (List (List ℚ)))
    (sn an : MinMaxNormalizer) (idx : ℕ) (sample : RMSample)
    (hsample : rmSampleSequence L pb pa epsObs epsAct idx = .ok sample) :
    getitem L pb pa epsObs epsAct sn an idx = .error "KeyError: action" := by
  have hbind : getitem L pb pa epsObs epsAct sn an idx
      = (rmSampleSequence L pb pa epsObs epsAct idx >>= fun sample =>
          dictGet (getNormalizer sn an) "obs" >>= fun obsEntry =>
          asDict obsEntry >>= fun obsDict =>
          dictGet obsDict "state" >>= fun stateVal =>
          asNorm stateVal >>= fun stateNm =>
          dictGet (getNormalizer sn an) "action" >>= fun actEntry =>
          asNorm actEntry >>= fun actNm =>
          Except.ok (sample.obs.map stateNm.normalizeRow,
            sample.action.map actNm.normalizeRow)) := rfl
  rw [hbind, hsample, exceptBind_ok]
  rfl

/-- Witness for C1: a one-episode, one-step dataset at the valid index `0`:
sampling succeeds, and `__getitem__` still raises `KeyError: action`. -/
theorem C1_getitem_keyerror_witness :
    getitem 1 0 0 [[[0]]] [[[0]]] ⟨[], [], -1, 1⟩ ⟨[], [], -1, 1⟩ 0
      = .error "KeyError: action" :=
  C1_getitem_keyerror 1 0 0 [[[0]]] [[[0]]] ⟨[], [], -1, 1⟩ ⟨[], [], -1, 1⟩ 0
    ⟨[[0]], [[0]]⟩ rfl

/-- Helper: a width-7 row is the concatenation of its position, rotation
and gripper slices. -/
theorem row_take_drop_decomp {α : Type} (row : List α) :
    row.take 3 ++ ((row.drop 3).take 3 ++ row.drop 6) = row := by
  have h : (row.drop 3).drop 3 = row.drop 6 := by
    rw [List.drop_drop]
  rw [← h, List.take_append_drop, List.take_append_drop]

/-- Helper: on a width-7 single-arm row, converting and then undoing the
absolute-action transform is the identity, and the converted row has
width 10. -/
theorem convertRow_undoRow (fwd inv : List ℚ → List ℚ)
    (hinv : ∀ r : List ℚ, r.length = 3 → inv (fwd r) = r)
    (hlen : ∀ r : List ℚ, r.length = 3 → (fwd r).length = 6)
    (row : List ℚ) (h7 : row.length = 7) :
    (convertRow fwd row).length = 10 ∧ undoRow inv (convertRow fwd row) = row := by
  have hp : (row.take 3).length = 3 := by
    rw [List.length_take]
    omega
  have hm : ((row.drop 3).take 3).length = 3 := by
    rw [List.length_take, List.length_drop]
    omega
  have hf : (fwd ((row.drop 3).take 3)).length = 6 := hlen _ hm
  have hlen10 : (convertRow fwd row).length = 10 := by
    rw [convertRow, List.length_append, List.length_append, hp, hf, List.length_drop]
    omega
  refine ⟨hlen10, ?_⟩
  have hc : convertRow fwd row = row.take 3 ++ (fwd ((row.drop 3).take 3) ++ row.drop 6) := by
    rw [convertRow, List.append_assoc]
  have ht3 : (convertRow fwd row).take 3 = row.take 3 := by
    rw [hc]
    exact List.take_left' hp
  have hd3 : (convertRow fwd row).drop 3 = fwd ((row.drop 3).take 3) ++ row.drop 6 := by
    rw [hc]
    exact List.drop_left' hp
  have ht6 : ((convertRow fwd row).drop 3).take (10 - 4) = fwd ((row.drop 3).take 3) := by
    rw [hd3]
    exact List.take_left' (by rw [hf])
  have hd9 : (convertRow fwd row).drop (10 - 1) = row.drop 6 := by
    rw [convertRow]
    exact List.drop_left' (by rw [List.length_append, hp, hf])
  rw [undoRow, hlen10, ht3, ht6, hd9, hinv _ hm, List.append_assoc]
  exact row_take_drop_decomp row

/-- Claim C2: with `abs_action` enabled, `undo_transform_action` inverts
`_convert_actions` on every width-7 single-arm row, and on every width-14
dual-actuator row the converted form has width 20 and undoing it restores
the original width-14 row (so in particular the position and gripper
channels are unchanged).  The rotation transformer is the abstract
collaborator: `inverse` undoes `forward` on 3-vectors and `forward`
produces 6-vectors. -/
theorem C2_abs_action_roundtrip (fwd inv : List ℚ → List ℚ)
    (hinv : ∀ r : List ℚ, r.length = 3 → inv (fwd r) = r)
    (hlen : ∀ r : List ℚ, r.length = 3 → (fwd r).length = 6) :
    (∀ row : List ℚ, row.length = 7 →
        undoTransformAction inv (convertActionsRow fwd true row) = row)
    ∧ (∀ row : List ℚ, row.length = 14 →
        (convertActionsRow fwd true row).length = 20
        ∧ undoTransformAction inv (convertActionsRow fwd true row) = row) := by
  constructor
  · intro row h7
    have hconv : convertActionsRow fwd true row = convertRow fwd row := by
      rw [convertActionsRow, if_pos rfl, if_neg (by omega)]
    obtain ⟨hl, hu⟩ := convertRow_undoRow fwd inv hinv hlen row h7
    rw [hconv, undoTransformAction, if_neg (by rw [hl]; decide), hu]
  · intro row h14
    have h7a : (row.take 7).length = 7 := by
      rw [List.length_take]
      omega
    have h7b : (row.drop 7).length = 7 := by
      rw [List.length_drop]
      omega
    obtain ⟨hl1, hu1⟩ := convertRow_undoRow fwd inv hinv hlen _ h7a
    obtain ⟨hl2, hu2⟩ := convertRow_undoRow fwd inv hinv hlen _ h7b
    have hconv : convertActionsRow fwd true row
        = convertRow fwd (row.take 7) ++ convertRow fwd (row.drop 7) := by
      rw [convertActionsRow, if_pos rfl, if_pos h14]
    have hlen20 : (convertActionsRow fwd true row).length = 20 := by
      rw [hconv, List.length_append, hl1, hl2]
    refine ⟨hlen20, ?_⟩
    have ht : (convertActionsRow fwd true row).take 10 = convertRow fwd (row.take 7) := by
      rw [hconv]
      exact List.take_left' hl1
    have hd : (convertActionsRow fwd true row).drop 10 = convertRow fwd (row.drop 7) := by
      rw [hconv]
      exact List.drop_left' hl1
    rw [undoTransformAction, if_pos hlen20, ht, hd, hu1, hu2, List.take_append_drop]

/-- Helper: the concrete stand-in transformer satisfies the inverse law. -/
theorem invModel_fwdModel : ∀ r : List ℚ, r.length = 3 → invModel (fwdModel r) = r := by
  intro r h
  rw [invModel, fwdModel]
  exact List.take_left' h

/-- Helper: the concrete stand-in transformer widens 3-vectors to
6-vectors. -/
theorem fwdModel_length : ∀ r : List ℚ, r.length = 3 → (fwdModel r).length = 6 := by
  intro r h
  rw [fwdModel, List.length_append, h]

/-- Witness for C2: the single-arm round trip on the concrete row
`[1,2,3,4,5,6,7]` with the stand-in transformer. -/
theorem C2_abs_action_roundtrip_witness :
    undoTransformAction invModel (convertActionsRow fwdModel true [1, 2, 3, 4, 5, 6, 7])
      = [1, 2, 3, 4, 5, 6, 7] :=
  (C2_abs_action_roundtrip fwdModel invModel invModel_fwdModel fwdModel_length).1
    [1, 2, 3, 4, 5, 6, 7] rfl

/-- Helper: every window of the sampler's table pairs an episode of the
store with a local start offset in `[-pad_before, n - L + pad_after]`. -/
theorem mem_allWindows {α : Type} {L pb pa : ℕ} {eps : List (List α)} {w : List α × ℤ}
    (h : w ∈ allWindows L pb pa eps) :
    w.1 ∈ eps ∧ -(pb : ℤ) ≤ w.2 ∧ w.2 + L ≤ (w.1.length : ℤ) + pa := by
  rw [allWindows, List.mem_flatMap] at h
  obtain ⟨ep, hep, hw⟩ := h
  rw [List.mem_map] at hw
  obtain ⟨o, ho, rfl⟩ := hw
  rw [episodeWindows, List.mem_map] at ho
  obtain ⟨k, hk, rfl⟩ := ho
  rw [List.mem_range, windowCount] at hk
  refine ⟨hep, ?_, ?_⟩
  · show -(pb : ℤ) ≤ (k : ℤ) - (pb : ℤ)
    omega
  · show (k : ℤ) - (pb : ℤ) + L ≤ (ep.length : ℤ) + pa
    omega

/-- Helper: a window whose clamped range meets the real data extracts
successfully and has length exactly `L`. -/
theorem extractWindow_ok_length {α : Type} (L : ℕ) (ep : List α) (o : ℤ)
    (hL : 0 < L) (h0 : 0 < ep.length) (h1 : 0 < o + L) (h2 : o < (ep.length : ℤ)) :
    ∃ out, extractWindow L ep o = .ok out ∧ out.length = L := by
  have hseglen : (windowSeg L ep o).length
      = (min (o + L) (ep.length : ℤ) - max o 0).toNat := by
    rw [windowSeg, List.length_take, List.length_drop]
    omega
  have hpos : 0 < (windowSeg L ep o).length := by
    rw [hseglen]
    omega
  have hne2 : windowSeg L ep o ≠ [] := List.length_pos.mp hpos
  obtain ⟨f, hf⟩ : ∃ f, (windowSeg L ep o).head? = some f := by
    cases hh : (windowSeg L ep o).head? with
    | none => exact absurd (List.head?_eq_none_iff.mp hh) hne2
    | some f => exact ⟨f, rfl⟩
  obtain ⟨l, hl⟩ : ∃ l, (windowSeg L ep o).getLast? = some l := by
    cases hh : (windowSeg L ep o).getLast? with
    | none => exact absurd (List.getLast?_eq_none_iff.mp hh) hne2
    | some l => exact ⟨l, rfl⟩
  refine ⟨List.replicate (max o 0 - o).toNat f ++ windowSeg L ep o
    ++ List.replicate (o + L - min (o + L) (ep.length : ℤ)).toNat l, ?_, ?_⟩
  · unfold extractWindow
    rw [hf, hl]
  · rw [List.length_append, List.length_append, List.length_replicate,
      List.length_replicate, hseglen]
    omega

/-- Helper: a window starting at or before the episode start is front-padded
with copies of the episode's first row. -/
theorem extractWindow_take_front {α : Type} (L : ℕ) (ep : List α) (o : ℤ)
    (h0 : 0 < ep.length) (h1 : 0 < o + L) (h2 : o < (ep.length : ℤ)) (hneg : o ≤ 0) :
    ∃ f out, ep.head? = some f ∧ extractWindow L ep o = .ok out
      ∧ out.take (-o).toNat = List.replicate (-o).toNat f := by
  have hlo : max o 0 = 0 := by omega
  have hseg : windowSeg L ep o = ep.take (min (o + L) (ep.length : ℤ)).toNat := by
    rw [windowSeg, hlo]
    simp
  have hm : 0 < (min (o + L) (ep.length : ℤ)).toNat := by omega
  obtain ⟨a, t, rfl⟩ : ∃ a t, ep = a :: t := by
    cases ep with
    | nil => simp at h0
    | cons a t => exact ⟨a, t, rfl⟩
  obtain ⟨m, hm'⟩ : ∃ m, (min (o + L) (((a :: t).length : ℤ))).toNat = m + 1 :=
    ⟨_, (Nat.succ_pred_eq_of_pos hm).symm⟩
  have hhead : (windowSeg L (a :: t) o).head? = some a := by
    rw [hseg, hm', List.take_succ_cons]
    rfl
  have hne2 : windowSeg L (a :: t) o ≠ [] := by
    rw [hseg, hm', List.take_succ_cons]
    simp
  obtain ⟨l, hl⟩ : ∃ l, (windowSeg L (a :: t) o).getLast? = some l := by
    cases hh : (windowSeg L (a :: t) o).getLast? with
    | none => exact absurd (List.getLast?_eq_none_iff.mp hh) hne2
    | some l => exact ⟨l, rfl⟩
  refine ⟨a, List.replicate (max o 0 - o).toNat a ++ windowSeg L (a :: t) o
    ++ List.replicate (o + L - min (o + L) (((a :: t).length : ℤ))).toNat l, rfl, ?_, ?_⟩
  · unfold extractWindow
    rw [hhead, hl]
  · have harg : max o 0 - o = -o := by omega
    rw [harg, List.append_assoc]
    exact List.take_left' (List.length_replicate _ _)

/-- Claim C8: under the documented preconditions (`pad_before < L`,
`pad_after < L`, non-empty episodes) `sample_sequence` succeeds on every
valid window index and returns a slice of leading length exactly `L`,
including the first and last window of every episode; and for the very
first window of the first episode with `pad_before = 2` (and at least one
window in that episode) the first two rows equal the episode's first row
repeated — edge-replication padding. -/
theorem C8_sample_length_and_padding {α : Type} (L pb pa : ℕ) (eps : List (List α))
    (hpb : pb < L) (hpa : pa < L) (hne : ∀ ep ∈ eps, ep ≠ []) :
    (∀ idx, idx < samplerLen L pb pa eps →
        ∃ out, sampleSequenceField L pb pa eps idx = .ok out ∧ out.length = L)
    ∧ (∀ ep0 rest, eps = ep0 :: rest → pb = 2 → L ≤ ep0.length + pb + pa →
        ∃ f out, ep0.head? = some f ∧ sampleSequenceField L pb pa eps 0 = .ok out
          ∧ out.take 2 = List.replicate 2 f) := by
  constructor
  · intro idx hidx
    obtain ⟨w, hw⟩ : ∃ w, (allWindows L pb pa eps).get? idx = some w := by
      rw [List.get?_eq_get hidx]
      exact ⟨_, rfl⟩
    obtain ⟨hep, hlo2, hhi2⟩ := mem_allWindows (List.get?_mem hw)
    obtain ⟨out, hout, hlen⟩ := extractWindow_ok_length L w.1 w.2 (by omega)
      (List.length_pos.mpr (hne w.1 hep)) (by omega) (by omega)
    refine ⟨out, ?_, hlen⟩
    rw [sampleSequenceField, hw]
    exact hout
  · rintro ep0 rest rfl rfl hLle
    have h0 : 0 < ep0.length := List.length_pos.mpr (hne ep0 (List.mem_cons_self _ _))
    have hcnt : 0 < windowCount L 2 pa ep0.length := by
      rw [windowCount]
      omega
    have hlen1 : 0 < ((episodeWindows L 2 pa ep0.length).map
        (fun o => (ep0, o))).length := by
      rw [List.length_map, episodeWindows, List.length_map, List.length_range]
      exact hcnt
    have hget : (allWindows L 2 pa (ep0 :: rest)).get? 0
        = some (ep0, ((0 : ℕ) : ℤ) - (2 : ℤ)) := by
      rw [allWindows, List.flatMap_cons, List.get?_append hlen1, List.get?_map,
        episodeWindows, List.get?_map, List.get?_range hcnt]
      rfl
    obtain ⟨f, out, hf, hout, htake⟩ := extractWindow_take_front L ep0
      (((0 : ℕ) : ℤ) - 2) h0 (by omega) (by omega) (by omega)
    refine ⟨f, out, hf, ?_, ?_⟩
    · rw [sampleSequenceField, hget]
      exact hout
    · exact htake

/-- Witness for C8: episodes `[[10,20,30,40,50]]` with `L = 3`,
`pad_before = 2`, `pad_after = 1`: the first window starts with the first
row repeated twice. -/
theorem C8_sample_length_and_padding_witness :
    ∃ f out, ([10, 20, 30, 40, 50] : List ℕ).head? = some f
      ∧ sampleSequenceField 3 2 1 [[10, 20, 30, 40, 50]] 0 = .ok out
      ∧ out.take 2 = List.replicate 2 f :=
  (C8_sample_length_and_padding 3 2 1 [[10, 20, 30, 40, 50]] (by decide) (by decide)
    (by decide)).2 [10, 20, 30, 40, 50] [] rfl rfl (by decide)

end CleanDiffuser
